import Mathlib

/-!
Verification development for the iledge-backend email-to-transaction
pipeline (src/app/parse_email.py and src/app/api.py).

The Python source is shallowly embedded as executable Lean definitions:

* Strings are Lean strings; the Python substring test, str.split, str.strip
  and str.startswith are re-implemented over character lists.
* HTML parsing (BeautifulSoup) is an external collaborator: a marker span
  is modelled as a structure carrying its visible text (span.text) and its
  raw markup (str(span)); the extractor consumes lists of such spans found
  in each decodable message part.
* pandas dataframes are modelled as lists of typed row structures; the
  column-wise operations of get_mail_dataframe are translated column-wise.
* Amount strings are parsed to Rat, modelling float() on plain decimal
  literals (optional sign, digits, optional fractional part).
* The Supabase store is modelled as in-memory tables with sequential
  upsert-on-conflict-key semantics and identity columns; datetimes are
  modelled as integer UTC instants.
* Fallible Python code (try/except returning None) becomes Option.
-/

/-! ## String utilities (Python substring, strip, split, startswith) -/

/-- Boolean test that the first list is a leading segment of the second.
Used to re-implement the Python substring and startswith operations. -/
def leadSeg : List Char → List Char → Bool
  | [], _ => true
  | _ :: _, [] => false
  | a :: as, b :: bs => a == b && leadSeg as bs

/-- Python `needle in haystack` on character lists: true when the needle
occurs contiguously anywhere in the haystack (an empty needle matches). -/
def containsSub (needle : List Char) : List Char → Bool
  | [] => needle.isEmpty
  | c :: rest => leadSeg needle (c :: rest) || containsSub needle rest

/-- Python `pat in s` for strings. -/
def strContains (s pat : String) : Bool := containsSub pat.toList s.toList

/-- Python `s.startswith(pre)`. -/
def strStarts (s pre : String) : Bool := leadSeg pre.toList s.toList

/-- Python `s.strip()` on character lists (whitespace trimmed at both ends). -/
def trimChars (cs : List Char) : List Char :=
  ((cs.dropWhile Char.isWhitespace).reverse.dropWhile Char.isWhitespace).reverse

/-- Fuel-driven splitter on a non-empty separator, mirroring Python
`s.split(sep)`: non-overlapping matches scanned left to right.  The fuel is
set to the input length plus one, which the scan can never exhaust. -/
def splitFuel (sep : List Char) : Nat → List Char → List Char → List (List Char)
  | 0, rest, acc => [acc.reverse ++ rest]
  | _ + 1, [], acc => [acc.reverse]
  | fuel + 1, c :: rest, acc =>
    if leadSeg sep (c :: rest) then
      acc.reverse :: splitFuel sep fuel (List.drop sep.length (c :: rest)) []
    else
      splitFuel sep fuel rest (c :: acc)

/-- Python `s.split(sep)` for strings (sep known non-empty at call sites;
an empty separator returns the string whole). -/
def splitOnStr (s sep : String) : List String :=
  if sep.toList.isEmpty then [s]
  else (splitFuel sep.toList (s.toList.length + 1) s.toList []).map String.mk

/-- Python `line.split(":", 1)` after the caller has checked that a colon is
present: the characters before the first colon and those after it. -/
def splitColonAux : List Char → List Char → List Char × List Char
  | [], acc => (acc.reverse, [])
  | c :: rest, acc =>
    if c == ':' then (acc.reverse, rest) else splitColonAux rest (c :: acc)

/-- Key and value of a `key : value` line, both stripped, as in
`map(str.strip, line.split(":", 1))`. -/
def splitColon (line : String) : String × String :=
  let p := splitColonAux line.toList []
  (String.mk (trimChars p.1), String.mk (trimChars p.2))

/-! ## Amount parsing (float() on plain decimal literals) -/

/-- Numeric value of a digit list, most significant first. -/
def digitsVal (ds : List Char) : Nat :=
  ds.foldl (fun n c => n * 10 + (c.toNat - 48)) 0

/-- Rational value of a parsed decimal literal: integer part, fractional
digits value and fractional length, with an optional leading minus.  The
integral case avoids Rat division so that concrete runs evaluate in the
kernel. -/
def ratOfParts (neg : Bool) (ip fr fl : Nat) : Rat :=
  let v : Rat := if fl = 0 then (ip : Rat) else (ip : Rat) + (fr : Rat) / ((10 : Rat) ^ fl)
  if neg then -v else v

/-- Models Python `float(s)` restricted to plain decimal literals, the
layout the pipeline's amount strings use: optional surrounding whitespace,
optional sign, digits with an optional fractional part.  Anything else
(including the empty string) fails, as float() does on malformed input. -/
def parseAmount (s : String) : Option Rat :=
  let t := trimChars s.toList
  let signBody : Bool × List Char :=
    match t with
    | '+' :: r => (false, r)
    | '-' :: r => (true, r)
    | r => (false, r)
  let body := signBody.2
  let ip := body.takeWhile Char.isDigit
  let rest := body.drop ip.length
  match rest with
  | [] => if ip.isEmpty then none else some (ratOfParts signBody.1 (digitsVal ip) 0 0)
  | '.' :: fr =>
    if fr.all Char.isDigit && !(ip.isEmpty && fr.isEmpty) then
      some (ratOfParts signBody.1 (digitsVal ip) (digitsVal fr) fr.length)
    else none
  | _ => none

/-! ## Message extractor (get_parsed_emails, src/app/parse_email.py) -/

/-- One marker element found by BeautifulSoup: a span with class
"gmailmsg".  `text` models `span.text` (visible text, tags stripped by the
HTML library) and `html` models `str(span)` (the raw markup the code splits
on line breaks). -/
structure Span where
  text : String
  html : String
deriving DecidableEq, Repr

/-- One fetched mail message: its Date header parsed to a UTC instant, and
its body parts.  A part with no decodable payload is `none`; a decodable
part carries the list of marker spans the HTML parser finds in it. -/
structure Mail where
  dateUtc : Int
  parts : List (Option (List Span))
deriving DecidableEq, Repr

/-- Outcome of `mail_connection.fetch` for one mail id: a non-OK status
(skipped by the code), a fetch whose payload raises while being decoded
into a message, or a successfully decoded message. -/
inductive FetchResult where
  | notOk : FetchResult
  | okBad : FetchResult
  | okMail : Mail → FetchResult
deriving DecidableEq, Repr

/-- The accumulating `parsed_mail_data` dictionary: one list per recognized
key, appended to in scan order.  The Transaction Date column holds the
substituted header instants, never body text. -/
structure Columns where
  upiRefNo : List String
  toVpa : List String
  fromVpa : List String
  payeeName : List String
  amount : List String
  txnDate : List Int
deriving DecidableEq, Repr

/-- The initial empty `parsed_mail_data` dictionary. -/
def emptyColumns : Columns := ⟨[], [], [], [], [], []⟩

/-- Processing of one candidate line of a marker span: skipped when it
starts with markup or lacks a colon; otherwise split once on the colon,
both sides stripped, and appended when the key is recognized.  The
Transaction Date value is replaced by the message's header instant. -/
def processLine (d : Int) (c : Columns) (line : String) : Columns :=
  if strStarts line "<" then c
  else if !(strContains line ":") then c
  else
    let kv := splitColon line
    if kv.1 = "UPI Ref. No." then { c with upiRefNo := c.upiRefNo ++ [kv.2] }
    else if kv.1 = "To VPA" then { c with toVpa := c.toVpa ++ [kv.2] }
    else if kv.1 = "From VPA" then { c with fromVpa := c.fromVpa ++ [kv.2] }
    else if kv.1 = "Payee Name" then { c with payeeName := c.payeeName ++ [kv.2] }
    else if kv.1 = "Amount" then { c with amount := c.amount ++ [kv.2] }
    else if kv.1 = "Transaction Date" then { c with txnDate := c.txnDate ++ [d] }
    else c

/-- Processing of one marker span: rejected whole when its text lacks the
external-reference label or carries the failed-status marker; otherwise its
markup is split on the line-break tag and each line is processed. -/
def processSpan (d : Int) (c : Columns) (sp : Span) : Columns :=
  if !(strContains sp.text "UPI Ref. No. ") then c
  else if strContains sp.text "Transaction Status: FAILED" then c
  else ((splitOnStr sp.html "<br/>").foldl (processLine d) c)

/-- Processing of one decoded message: every body part is walked, parts
with no decodable payload are skipped, and every marker span found in a
decodable part is processed with the message's header instant. -/
def processMail (c : Columns) (m : Mail) : Columns :=
  m.parts.foldl
    (fun acc part =>
      match part with
      | none => acc
      | some spans => spans.foldl (processSpan m.dateUtc) acc)
    c

/-- The fetch loop of get_parsed_emails: a non-OK fetch status is skipped
with continue; an exception while decoding a fetched payload propagates to
the function-level handler, which returns None for the whole run. -/
def runMails (c : Columns) : List FetchResult → Option Columns
  | [] => some c
  | FetchResult.notOk :: rest => runMails c rest
  | FetchResult.okBad :: _ => none
  | FetchResult.okMail m :: rest => runMails (processMail c m) rest

/-- get_parsed_emails over the fetch outcomes of the given mail ids:
either the accumulated column dictionary, or None when any message of the
run raised. -/
def getParsedEmails (rs : List FetchResult) : Option Columns :=
  runMails emptyColumns rs

/-! ## Dataframe construction (get_mail_dataframe, src/app/parse_email.py) -/

/-- One row of the renamed mail dataframe: upi_ref_no, payee_upi_id (from
To VPA), sender_upi_id (from From VPA), payee_name, signed amount and the
transaction instant. -/
structure PRow where
  upi_ref_no : String
  payee_upi_id : String
  sender_upi_id : String
  payee_name : String
  amount : Rat
  transaction_date : Int
deriving DecidableEq, Repr

/-- pandas accepts a dict of columns only when all columns have one common
length; otherwise DataFrame construction raises. -/
def columnsAligned (c : Columns) : Bool :=
  c.toVpa.length == c.upiRefNo.length &&
  c.fromVpa.length == c.upiRefNo.length &&
  c.payeeName.length == c.upiRefNo.length &&
  c.amount.length == c.upiRefNo.length &&
  c.txnDate.length == c.upiRefNo.length

/-- The own-id match of the source: the IDS environment value is split on
commas, each entry is regex-escaped and the alternation is matched with
str.contains — semantically, some entry occurs in the payee id as a
case-sensitive substring. -/
def ownIdsMatch (envIds : String) (payee : String) : Bool :=
  (splitOnStr envIds ",").any (fun idStr => strContains payee idStr)

/-- Row assembly of the aligned columns, one dataframe row per index. -/
def zipRows : List String → List String → List String → List String →
    List Rat → List Int → List PRow
  | r :: rs, t :: ts, f :: fs, p :: ps, a :: amts, d :: ds =>
    { upi_ref_no := r, payee_upi_id := t, sender_upi_id := f, payee_name := p,
      amount := a, transaction_date := d } :: zipRows rs ts fs ps amts ds
  | _, _, _, _, _, _ => []

/-- get_mail_dataframe: builds the dataframe from the column dictionary,
renames the columns, parses every amount as a float (any failure raises,
caught as None for the whole call), and multiplies by -1 the amount of
every row whose payee_upi_id matches the IDS alternation.  Unequal column
lengths make DataFrame construction raise, likewise caught as None. -/
def mkMailDataframe (envIds : String) (c : Columns) : Option (List PRow) :=
  if columnsAligned c then
    if c.amount.any (fun a => (parseAmount a).isNone) then none
    else
      let amts := c.amount.map (fun a => (parseAmount a).getD 0)
      let signed := List.zipWith
        (fun a p => if ownIdsMatch envIds p then -a else a) amts c.toVpa
      some (zipRows c.upiRefNo c.toVpa c.fromVpa c.payeeName signed c.txnDate)
  else none

/-! ## Store model and process_transactions (src/app/api.py)

process_transactions consumes a dataframe in its expected schema —
columns upi_ref_no, amount, sender_upi_id, receiver_upi_id, receiver_name,
transaction_date — and talks to two Supabase tables: receivers (identity
id, unique receiver_upi_id, name, user_id) and transactions (upserted on
upi_ref_no). -/

/-- One input row of process_transactions, in the schema the function
reads (receiver naming). -/
structure RRow where
  upi_ref_no : String
  amount : Rat
  sender_upi_id : String
  receiver_upi_id : String
  receiver_name : String
  transaction_date : Int
deriving DecidableEq, Repr

/-- One persisted row of the receivers table. -/
structure RecRow where
  id : Nat
  receiver_upi_id : String
  name : String
  user_id : Nat
deriving DecidableEq, Repr

/-- One element of the receivers upsert payload. -/
structure RecEntry where
  receiver_upi_id : String
  name : String
  user_id : Nat
deriving DecidableEq, Repr

/-- One persisted row of the transactions table (the surrogate id column
is not modelled; upi_ref_no is the conflict key). -/
structure TxRow where
  upi_ref_no : String
  amount : Rat
  sender_upi_id : String
  receiver_id : Option Nat
  transaction_date : Int
  user_id : Nat
deriving DecidableEq, Repr

/-- The persisted store: both tables plus their identity counters. -/
structure StoreState where
  receivers : List RecRow
  nextReceiverId : Nat
  transactions : List TxRow
  nextTxId : Nat
deriving DecidableEq, Repr

/-- The store after truncate_and_reset: both tables empty, identities
restarted. -/
def emptyStore : StoreState := ⟨[], 1, [], 1⟩

/-- Store calls process_transactions and populate_all_transactions issue. -/
inductive StoreOp where
  | truncateAndReset : StoreOp
  | upsertReceiversOp : StoreOp
  | selectReceivers : StoreOp
  | upsertTransactionsOp : StoreOp
deriving DecidableEq, Repr

/-- Key and update operations of an upsert-on-conflict-key table: the
row key, the payload-entry key, the overwrite of a conflicting row, and
the construction of a fresh row from the next identity value. -/
structure KeyedOps (α β : Type) where
  key : α → String
  ekey : β → String
  upd : α → β → α
  fresh : Nat → β → α

/-- One step of a sequential upsert: a payload entry whose key matches an
existing row overwrites every row with that key in place; otherwise a
fresh row is appended and the identity counter advances. -/
def upStep {α β : Type} (K : KeyedOps α β) (st : List α × Nat) (e : β) : List α × Nat :=
  if st.1.any (fun r => K.key r == K.ekey e) then
    (st.1.map (fun r => if K.key r == K.ekey e then K.upd r e else r), st.2)
  else
    (st.1 ++ [K.fresh st.2 e], st.2 + 1)

/-- Supabase `upsert(records, on_conflict=key)` over a whole payload,
applied in payload order. -/
def upsertAll {α β : Type} (K : KeyedOps α β) (data : List β) (st : List α × Nat) :
    List α × Nat :=
  data.foldl (upStep K) st

/-- Upsert operations of the receivers table: conflict on
receiver_upi_id, overwrite of name and user_id. -/
def recOps : KeyedOps RecRow RecEntry where
  key := RecRow.receiver_upi_id
  ekey := RecEntry.receiver_upi_id
  upd := fun r e => { r with name := e.name, user_id := e.user_id }
  fresh := fun n e => ⟨n, e.receiver_upi_id, e.name, e.user_id⟩

/-- Upsert operations of the transactions table: conflict on upi_ref_no,
every other column overwritten by the incoming record. -/
def txOps : KeyedOps TxRow TxRow where
  key := TxRow.upi_ref_no
  ekey := TxRow.upi_ref_no
  upd := fun _ e => e
  fresh := fun _ e => e

/-- pandas `rank(method="first", ascending=False)` of row `r` sitting at
index `i` of its dataframe, within the group sharing its receiver_upi_id:
one plus the number of group rows with a strictly later date plus the
number of earlier group rows with the same date.  The most recent row of
the group gets rank 1, earliest-in-batch first among ties. -/
def rankAt (df : List RRow) (i : Nat) (r : RRow) : Nat :=
  df.countP (fun q => q.receiver_upi_id == r.receiver_upi_id &&
      r.transaction_date < q.transaction_date) +
    (df.take i).countP (fun q => q.receiver_upi_id == r.receiver_upi_id &&
      q.transaction_date == r.transaction_date) + 1

/-- The rank-1 filter `receiver_df[receiver_df["rank"] == 1]`: the rows of
rank 1, in original dataframe order. -/
def rank1Rows (df : List RRow) : List RRow :=
  (List.range df.length).filterMap
    (fun i =>
      match df[i]? with
      | some q => if rankAt df i q = 1 then some q else none
      | none => none)

/-- The receivers upsert payload `receiver_data` built from the rank-1
rows. -/
def receiverData (u : Nat) (df : List RRow) : List RecEntry :=
  (rank1Rows df).map (fun q => ⟨q.receiver_upi_id, q.receiver_name, u⟩)

/-- The `receiver_upi_ids` list handed to the read-back filter. -/
def receiverUpiIds (df : List RRow) : List String :=
  (rank1Rows df).map RRow.receiver_upi_id

/-- The read-back select with an `in_` filter: the stored receiver rows
whose receiver_upi_id is among the requested ids, in store order. -/
def readBack (uids : List String) (recs : List RecRow) : List RecRow :=
  recs.filter (fun r => uids.contains r.receiver_upi_id)

/-- The `receiver_mapping` dict comprehension followed by `.get`: the id
of the last read-back row carrying the given external id, None when no
row does. -/
def mappingGet (db : List RecRow) (uid : String) : Option Nat :=
  (db.reverse.find? (fun r => r.receiver_upi_id == uid)).map RecRow.id

/-- The receivers table and identity counter after the receivers upsert
of one process_transactions run. -/
def resolvedRecState (u : Nat) (df : List RRow) (s : StoreState) : List RecRow × Nat :=
  upsertAll recOps (receiverData u df) (s.receivers, s.nextReceiverId)

/-- The read-back rows the run builds its mapping from. -/
def resolvedDb (u : Nat) (df : List RRow) (s : StoreState) : List RecRow :=
  readBack (receiverUpiIds df) (resolvedRecState u df s).1

/-- One element of `transaction_records`: the dataframe row joined with
the resolved receiver id (None when the mapping lacks the external id —
`.get` returns None rather than raising). -/
def buildTx (u : Nat) (db : List RecRow) (r : RRow) : TxRow :=
  { upi_ref_no := r.upi_ref_no, amount := r.amount,
    sender_upi_id := r.sender_upi_id,
    receiver_id := mappingGet db r.receiver_upi_id,
    transaction_date := r.transaction_date, user_id := u }

/-- process_transactions: an empty dataframe returns immediately with no
store calls; otherwise the rank-1 receiver names are upserted, the ids are
read back, the transaction records are built from the mapping and upserted
on upi_ref_no.  The returned operation list records the store calls
issued. -/
def processTransactions (u : Nat) (df : List RRow) (s : StoreState) :
    StoreState × List StoreOp :=
  if df.isEmpty then (s, [])
  else
    let rst := resolvedRecState u df s
    let db := resolvedDb u df s
    let txs := df.map (buildTx u db)
    let tst := upsertAll txOps txs (s.transactions, s.nextTxId)
    ({ receivers := rst.1, nextReceiverId := rst.2,
       transactions := tst.1, nextTxId := tst.2 },
     [StoreOp.upsertReceiversOp, StoreOp.selectReceivers,
      StoreOp.upsertTransactionsOp])

/-- Endpoint response surfaced to the caller of /all-transactions. -/
inductive PopResponse where
  | created201 : PopResponse
  | error500 : PopResponse
deriving DecidableEq, Repr

/-- populate_all_transactions after mail fetching: the parsed column
dictionary (None when get_parsed_emails failed) is turned into the
dataframe, then the truncate_and_reset RPC runs unconditionally, then
process_transactions runs on the dataframe.  A None dataframe makes
process_transactions raise on its first subscript, caught as a 500 — after
the truncate.  A non-empty dataframe raises a KeyError inside
process_transactions because the dataframe carries payee_upi_id and
payee_name while process_transactions selects receiver_upi_id and
receiver_name; that exception is also caught as a 500, again after the
truncate.  Only the empty dataframe reaches the early return and the 201
response. -/
def populateAllTransactions (u : Nat) (envIds : String) (parsed : Option Columns)
    (s : StoreState) : PopResponse × StoreState × List StoreOp :=
  let mailDf := parsed.bind (mkMailDataframe envIds)
  match mailDf with
  | none => (PopResponse.error500, emptyStore, [StoreOp.truncateAndReset])
  | some df =>
    if df.isEmpty then (PopResponse.created201, emptyStore, [StoreOp.truncateAndReset])
    else (PopResponse.error500, emptyStore, [StoreOp.truncateAndReset])

/-! ## Generic lemmas about the upsert-on-conflict-key store -/

/-- Algebraic conditions the two upsert instances satisfy: overwriting
keeps the row key, overwrites compose by keeping the last one, and a
freshly inserted row is a fixed point of the overwrite that created it. -/
structure KeyedLaws {a b : Type} (K : KeyedOps a b) : Prop where
  key_upd : forall r e, K.ekey e = K.key r -> K.key (K.upd r e) = K.key r
  upd_upd : forall r e e2, K.ekey e = K.key r -> K.upd (K.upd r e) e2 = K.upd r e2
  upd_fresh : forall n e, K.upd (K.fresh n e) e = K.fresh n e
  key_fresh : forall n e, K.key (K.fresh n e) = K.ekey e

/-- The last payload entry carrying a given key, mirroring the fact that a
sequential upsert leaves the last write for each key. -/
def lastEntry {a b : Type} (K : KeyedOps a b) (data : List b) (k : String) : Option b :=
  data.reverse.find? (fun e => K.ekey e == k)

/-- The effect of a pure-update upsert on one stored row: overwritten by
the last payload entry with its key, untouched when no entry has it. -/
def applyLast {a b : Type} (K : KeyedOps a b) (data : List b) (r : a) : a :=
  match lastEntry K data (K.key r) with
  | some e => K.upd r e
  | none => r

theorem lastEntry_nil {a b : Type} (K : KeyedOps a b) (k : String) :
    lastEntry K [] k = none := rfl

theorem lastEntry_cons {a b : Type} (K : KeyedOps a b) (e : b) (ds : List b) (k : String) :
    lastEntry K (e :: ds) k =
      ((lastEntry K ds k).or (if K.ekey e == k then some e else none)) := by
  unfold lastEntry
  rw [List.reverse_cons, List.find?_append]
  cases hbe : K.ekey e == k <;>
    simp [List.find?_cons, List.find?_nil, hbe]

theorem key_present_upStep {a b : Type} {K : KeyedOps a b} (L : KeyedLaws K)
    (e : b) (st : List a × Nat) :
    ∃ r ∈ (upStep K st e).1, K.key r = K.ekey e := by
  unfold upStep
  by_cases h : st.1.any (fun r => K.key r == K.ekey e)
  · rcases List.any_eq_true.mp h with ⟨q, hq, hqe⟩
    refine ⟨K.upd q e, ?_, ?_⟩
    · simp only [h, if_true]
      exact List.mem_map.mpr ⟨q, hq, by simp [hqe]⟩
    · have hk : K.ekey e = K.key q := (beq_iff_eq.mp hqe).symm
      rw [L.key_upd q e hk, ← hk]
  · refine ⟨K.fresh st.2 e, ?_, L.key_fresh st.2 e⟩
    simp only [h, if_false]
    exact List.mem_append.mpr (Or.inr (List.mem_singleton.mpr rfl))

theorem key_preserved_upStep {a b : Type} {K : KeyedOps a b} (L : KeyedLaws K)
    (e : b) (st : List a × Nat) (k : String)
    (h : ∃ r ∈ st.1, K.key r = k) :
    ∃ r ∈ (upStep K st e).1, K.key r = k := by
  rcases h with ⟨r, hr, hrk⟩
  unfold upStep
  by_cases hb : st.1.any (fun q => K.key q == K.ekey e)
  · simp only [hb, if_true]
    by_cases hm : K.key r == K.ekey e
    · refine ⟨K.upd r e, List.mem_map.mpr ⟨r, hr, by simp [hm]⟩, ?_⟩
      rw [L.key_upd r e (beq_iff_eq.mp hm).symm, hrk]
    · exact ⟨r, List.mem_map.mpr ⟨r, hr, by simp [hm]⟩, hrk⟩
  · simp only [hb, if_false]
    exact ⟨r, List.mem_append.mpr (Or.inl hr), hrk⟩

theorem key_present_upsertAll {a b : Type} {K : KeyedOps a b} (L : KeyedLaws K)
    (data : List b) (st : List a × Nat) (k : String)
    (h : ∃ r ∈ st.1, K.key r = k) :
    ∃ r ∈ (upsertAll K data st).1, K.key r = k := by
  induction data generalizing st with
  | nil => exact h
  | cons e ds ih => exact ih (upStep K st e) (key_preserved_upStep L e st k h)

theorem key_of_data_present {a b : Type} {K : KeyedOps a b} (L : KeyedLaws K)
    (data : List b) (st : List a × Nat) (e : b) (he : e ∈ data) :
    ∃ r ∈ (upsertAll K data st).1, K.key r = K.ekey e := by
  induction data generalizing st with
  | nil => cases he
  | cons e2 ds ih =>
    rcases List.mem_cons.mp he with rfl | hmem
    · exact key_present_upsertAll L ds (upStep K st e) (K.ekey e)
        (key_present_upStep L e st)
    · exact ih (upStep K st e2) hmem

theorem untouched_mem {a b : Type} {K : KeyedOps a b} (L : KeyedLaws K)
    (data : List b) (st : List a × Nat) (r : a)
    (hr : r ∈ (upsertAll K data st).1)
    (hno : ∀ e ∈ data, K.ekey e ≠ K.key r) :
    r ∈ st.1 := by
  induction data generalizing st with
  | nil => exact hr
  | cons e ds ih =>
    have hne : K.ekey e ≠ K.key r := hno e (List.mem_cons_self e ds)
    have hr2 : r ∈ (upStep K st e).1 :=
      ih (upStep K st e) hr (fun e2 h2 => hno e2 (List.mem_cons_of_mem e h2))
    unfold upStep at hr2
    by_cases hb : st.1.any (fun q => K.key q == K.ekey e)
    · simp only [hb, if_true] at hr2
      rcases List.mem_map.mp hr2 with ⟨q, hq, hqr⟩
      by_cases hm : K.key q == K.ekey e
      · exfalso
        rw [if_pos hm] at hqr
        apply hne
        rw [← hqr, L.key_upd q e (beq_iff_eq.mp hm).symm]
        exact (beq_iff_eq.mp hm).symm ▸ rfl
      · rw [if_neg hm] at hqr
        exact hqr ▸ hq
    · simp only [hb, if_false] at hr2
      rcases List.mem_append.mp hr2 with h1 | h1
      · exact h1
      · exfalso
        have : r = K.fresh st.2 e := List.mem_singleton.mp h1
        exact hne (by rw [this, L.key_fresh])
  
theorem value_after_step {a b : Type} {K : KeyedOps a b} (L : KeyedLaws K)
    (e : b) (st : List a × Nat) (r : a)
    (hr : r ∈ (upStep K st e).1) (hk : K.key r = K.ekey e) :
    K.upd r e = r := by
  unfold upStep at hr
  by_cases hb : st.1.any (fun q => K.key q == K.ekey e)
  · simp only [hb, if_true] at hr
    rcases List.mem_map.mp hr with ⟨q, hq, hqr⟩
    by_cases hm : K.key q == K.ekey e
    · rw [if_pos hm] at hqr
      rw [← hqr]
      exact L.upd_upd q e e (beq_iff_eq.mp hm).symm
    · exfalso
      rw [if_neg hm] at hqr
      rw [hqr] at hm
      exact hm (beq_iff_eq.mpr hk)
  · simp only [hb, if_false] at hr
    rcases List.mem_append.mp hr with h1 | h1
    · exfalso
      apply hb
      exact List.any_eq_true.mpr ⟨r, h1, beq_iff_eq.mpr hk⟩
    · rw [List.mem_singleton.mp h1]
      exact L.upd_fresh st.2 e

theorem value_after_upsertAll {a b : Type} {K : KeyedOps a b} (L : KeyedLaws K)
    (data : List b) (st : List a × Nat) (r : a) (e : b)
    (hr : r ∈ (upsertAll K data st).1)
    (hl : lastEntry K data (K.key r) = some e) :
    K.upd r e = r := by
  induction data generalizing st with
  | nil => simp [lastEntry_nil] at hl
  | cons e2 ds ih =>
    rw [lastEntry_cons] at hl
    rcases hds : lastEntry K ds (K.key r) with _ | x
    · rw [hds, Option.none_or] at hl
      by_cases hm : K.ekey e2 == K.key r
      · rw [if_pos hm] at hl
        have he : e = e2 := (Option.some.injEq _ _).mp hl.symm
        rw [he]
        have hnods : ∀ e3 ∈ ds, K.ekey e3 ≠ K.key r := by
          intro e3 h3 hc
          have : List.find? (fun x => K.ekey x == K.key r) ds.reverse = none := hds
          rw [List.find?_eq_none] at this
          exact absurd (beq_iff_eq.mpr hc) (this e3 (List.mem_reverse.mpr h3))
        have hr2 : r ∈ (upStep K st e2).1 :=
          untouched_mem L ds (upStep K st e2) r hr hnods
        exact value_after_step L e2 st r hr2 (beq_iff_eq.mp hm).symm
      · rw [if_neg hm] at hl
        cases hl
    · rw [hds] at hl
      have hsome : some x = some e := by rw [← hl]; rfl
      have he : e = x := ((Option.some.injEq _ _).mp hsome).symm
      rw [← he] at hds
      exact ih (upStep K st e2) hr hds

theorem updates_only {a b : Type} {K : KeyedOps a b} (L : KeyedLaws K)
    (data : List b) (st : List a × Nat)
    (h : ∀ e ∈ data, ∃ r ∈ st.1, K.key r = K.ekey e) :
    upsertAll K data st = (st.1.map (applyLast K data), st.2) := by
  induction data generalizing st with
  | nil =>
    have : st.1.map (applyLast K []) = st.1 := by
      have := List.map_congr_left (l := st.1)
        (f := applyLast K ([] : List b)) (g := id) (fun r _ => rfl)
      rw [this, List.map_id]
    rw [this]
    rfl
  | cons e ds ih =>
    have hpres : st.1.any (fun q => K.key q == K.ekey e) = true := by
      rcases h e (List.mem_cons_self e ds) with ⟨r, hr, hrk⟩
      exact List.any_eq_true.mpr ⟨r, hr, beq_iff_eq.mpr hrk⟩
    have hstep : upStep K st e =
        (st.1.map (fun r => if K.key r == K.ekey e then K.upd r e else r), st.2) := by
      unfold upStep
      rw [if_pos hpres]
    have hkeep : ∀ r, K.key (if K.key r == K.ekey e then K.upd r e else r) = K.key r := by
      intro r
      by_cases hm : K.key r == K.ekey e
      · rw [if_pos hm]
        exact L.key_upd r e (beq_iff_eq.mp hm).symm
      · rw [if_neg hm]
    have hds : ∀ e2 ∈ ds, ∃ r ∈ (upStep K st e).1, K.key r = K.ekey e2 := by
      intro e2 h2
      rcases h e2 (List.mem_cons_of_mem e h2) with ⟨r, hr, hrk⟩
      refine ⟨(fun q => if K.key q == K.ekey e then K.upd q e else q) r, ?_, ?_⟩
      · rw [hstep]
        exact List.mem_map.mpr ⟨r, hr, rfl⟩
      · rw [hkeep r, hrk]
    have := ih (upStep K st e) hds
    show upsertAll K ds (upStep K st e) = _
    rw [this, hstep]
    simp only [List.map_map]
    congr 1
    apply List.map_congr_left
    intro r _
    show applyLast K ds (if K.key r == K.ekey e then K.upd r e else r) = applyLast K (e :: ds) r
    have hkr : K.key (if K.key r == K.ekey e then K.upd r e else r) = K.key r := hkeep r
    unfold applyLast
    rw [hkr, lastEntry_cons]
    rcases hds2 : lastEntry K ds (K.key r) with _ | x
    · rw [Option.none_or]
      by_cases hm : K.ekey e == K.key r
      · rw [if_pos hm]
        have hm2 : K.key r == K.ekey e := beq_iff_eq.mpr (beq_iff_eq.mp hm).symm
        rw [if_pos hm2]
      · rw [if_neg hm]
        have hm2 : (K.key r == K.ekey e) = false := by
          rcases hb : K.key r == K.ekey e
          · rfl
          · exact absurd (beq_iff_eq.mpr (beq_iff_eq.mp hb).symm) (by simp [hm])
        rw [hm2]
        simp
    · have hred : (some x).or (if K.ekey e == K.key r then some e else none) = some x := rfl
      rw [hred]
      by_cases hm : K.key r == K.ekey e
      · rw [if_pos hm]
        exact L.upd_upd r e x (beq_iff_eq.mp hm).symm
      · rw [if_neg hm]

theorem upsert_idempotent {a b : Type} {K : KeyedOps a b} (L : KeyedLaws K)
    (data : List b) (st : List a × Nat) :
    upsertAll K data (upsertAll K data st) = upsertAll K data st := by
  have hpres : ∀ e ∈ data, ∃ r ∈ (upsertAll K data st).1, K.key r = K.ekey e :=
    fun e he => key_of_data_present L data st e he
  rw [updates_only L data (upsertAll K data st) hpres]
  have hfix : ∀ r ∈ (upsertAll K data st).1, applyLast K data r = r := by
    intro r hr
    unfold applyLast
    rcases hl : lastEntry K data (K.key r) with _ | e
    · rfl
    · exact value_after_upsertAll L data st r e hr hl
  rw [List.map_congr_left hfix]
  show (List.map id (upsertAll K data st).1, (upsertAll K data st).2) = upsertAll K data st
  rw [List.map_id]

/-- The receivers upsert satisfies the keyed-store laws. -/
theorem recLaws : KeyedLaws recOps where
  key_upd := fun _ _ _ => rfl
  upd_upd := fun _ _ _ _ => rfl
  upd_fresh := fun _ _ => rfl
  key_fresh := fun _ _ => rfl

/-- The transactions upsert satisfies the keyed-store laws. -/
theorem txLaws : KeyedLaws txOps where
  key_upd := fun _ e h => h
  upd_upd := fun _ _ _ _ => rfl
  upd_fresh := fun _ _ => rfl
  key_fresh := fun _ _ => rfl

/-! ## Claim C4: idempotent re-processing -/

/-- C4.  Running process_transactions twice over the same dataframe leaves
the store exactly as one run does: the receivers upsert (conflict key
receiver_upi_id) and the transactions upsert (conflict key upi_ref_no)
replay the first run's writes with identical values, so re-processing a
message with an already-seen external reference overwrites the prior
record instead of duplicating it, and the identity counters do not move.
Parsing is a pure function of the fetched messages, so a second pipeline
run over the same raw messages feeds the same dataframe to this step. -/
theorem c4_reprocessing_idempotent (u : Nat) (df : List RRow) (s : StoreState) :
    processTransactions u df (processTransactions u df s).1 = processTransactions u df s := by
  rcases h : df.isEmpty
  · have hproc : ∀ t : StoreState, processTransactions u df t =
        (⟨(resolvedRecState u df t).1, (resolvedRecState u df t).2,
          (upsertAll txOps (df.map (buildTx u (resolvedDb u df t)))
            (t.transactions, t.nextTxId)).1,
          (upsertAll txOps (df.map (buildTx u (resolvedDb u df t)))
            (t.transactions, t.nextTxId)).2⟩,
         [StoreOp.upsertReceiversOp, StoreOp.selectReceivers,
          StoreOp.upsertTransactionsOp]) := by
      intro t
      unfold processTransactions
      rw [h]
      rfl
    have hrec1 : resolvedRecState u df (processTransactions u df s).1 =
        resolvedRecState u df s := by
      have h1 : (processTransactions u df s).1.receivers = (resolvedRecState u df s).1 := by
        rw [hproc s]
      have h2 : (processTransactions u df s).1.nextReceiverId =
          (resolvedRecState u df s).2 := by
        rw [hproc s]
      show upsertAll recOps (receiverData u df)
        ((processTransactions u df s).1.receivers,
         (processTransactions u df s).1.nextReceiverId) = _
      rw [h1, h2, Prod.mk.eta]
      exact upsert_idempotent recLaws _ _
    have hdb1 : resolvedDb u df (processTransactions u df s).1 = resolvedDb u df s := by
      show readBack (receiverUpiIds df)
        (resolvedRecState u df (processTransactions u df s).1).1 = _
      rw [hrec1]
      rfl
    have htx1 : upsertAll txOps
        (df.map (buildTx u (resolvedDb u df (processTransactions u df s).1)))
        ((processTransactions u df s).1.transactions,
         (processTransactions u df s).1.nextTxId) =
        upsertAll txOps (df.map (buildTx u (resolvedDb u df s)))
          (s.transactions, s.nextTxId) := by
      have ht : (processTransactions u df s).1.transactions =
          (upsertAll txOps (df.map (buildTx u (resolvedDb u df s)))
            (s.transactions, s.nextTxId)).1 := by
        rw [hproc s]
      have hn : (processTransactions u df s).1.nextTxId =
          (upsertAll txOps (df.map (buildTx u (resolvedDb u df s)))
            (s.transactions, s.nextTxId)).2 := by
        rw [hproc s]
      rw [hdb1, ht, hn, Prod.mk.eta]
      exact upsert_idempotent txLaws _ _
    rw [hproc ((processTransactions u df s).1), htx1, hrec1, hproc s]
  · simp [processTransactions, h]

/-! ## Rank-1 selection lemmas (the pandas rank of process_transactions) -/

/-- A row has rank 1 within its group exactly when no group row has a
strictly later date and no earlier group row shares its date. -/
theorem rank1_iff (df : List RRow) (i : Nat) (r : RRow) :
    rankAt df i r = 1 ↔
      ((∀ q ∈ df, q.receiver_upi_id = r.receiver_upi_id →
          ¬ r.transaction_date < q.transaction_date) ∧
       (∀ q ∈ df.take i, q.receiver_upi_id = r.receiver_upi_id →
          ¬ q.transaction_date = r.transaction_date)) := by
  unfold rankAt
  constructor
  · intro h
    have hc1 : df.countP (fun q => q.receiver_upi_id == r.receiver_upi_id &&
        decide (r.transaction_date < q.transaction_date)) = 0 := by omega
    have hc2 : (df.take i).countP (fun q => q.receiver_upi_id == r.receiver_upi_id &&
        q.transaction_date == r.transaction_date) = 0 := by omega
    constructor
    · intro q hq hid
      have := List.countP_eq_zero.mp hc1 q hq
      simp only [Bool.and_eq_true, beq_iff_eq, decide_eq_true_eq, not_and] at this
      exact this hid
    · intro q hq hid
      have := List.countP_eq_zero.mp hc2 q hq
      simp only [Bool.and_eq_true, beq_iff_eq, not_and] at this
      exact this hid
  · rintro ⟨h1, h2⟩
    have hc1 : df.countP (fun q => q.receiver_upi_id == r.receiver_upi_id &&
        decide (r.transaction_date < q.transaction_date)) = 0 := by
      rw [List.countP_eq_zero]
      intro q hq
      simp only [Bool.and_eq_true, beq_iff_eq, decide_eq_true_eq, not_and]
      exact h1 q hq
    have hc2 : (df.take i).countP (fun q => q.receiver_upi_id == r.receiver_upi_id &&
        q.transaction_date == r.transaction_date) = 0 := by
      rw [List.countP_eq_zero]
      intro q hq
      simp only [Bool.and_eq_true, beq_iff_eq, not_and]
      exact h2 q hq
    omega

/-- Membership in the rank-1 row list is membership at some index of rank 1. -/
theorem mem_rank1Rows (df : List RRow) (q : RRow) :
    q ∈ rank1Rows df ↔ ∃ i, df[i]? = some q ∧ rankAt df i q = 1 := by
  unfold rank1Rows
  rw [List.mem_filterMap]
  constructor
  · rintro ⟨i, _, hmatch⟩
    cases hdf : df[i]? with
    | none => rw [hdf] at hmatch; cases hmatch
    | some p =>
      rw [hdf] at hmatch
      have hm2 : (if rankAt df i p = 1 then some p else none) = some q := hmatch
      by_cases hrk : rankAt df i p = 1
      · rw [if_pos hrk] at hm2
        have hpq : p = q := (Option.some.injEq _ _).mp hm2
        exact ⟨i, by rw [hdf, hpq], by rw [← hpq]; exact hrk⟩
      · rw [if_neg hrk] at hm2
        cases hm2
  · rintro ⟨i, hdf, hrk⟩
    refine ⟨i, List.mem_range.mpr (List.getElem?_eq_some.mp hdf).1, ?_⟩
    rw [hdf]
    show (if rankAt df i q = 1 then some q else none) = some q
    rw [if_pos hrk]

/-- Membership in a take-again prefix from an index bound. -/
theorem mem_take_of_getElem (df : List RRow) (i j : Nat) (r : RRow)
    (hi : df[i]? = some r) (hij : i < j) : r ∈ df.take j := by
  have h : (df.take j)[i]? = some r := by
    rw [List.getElem?_take, if_pos hij]
    exact hi
  exact List.getElem?_mem h

/-! ## Claim C3: recency tie-break of the resolved display name -/

/-- C3.  If the record at index i of the batch carries the group-maximal
occurred_at for its receiver_upi_id, and every earlier record of the group
is strictly older, then the receivers payload upserted by
process_transactions carries exactly that record's receiver_name for this
external id: the name of the latest record wins regardless of batch order,
and among records tied on occurred_at the earliest batch position wins
(such a position satisfies the strict-earlier hypothesis). -/
theorem c3_latest_name_resolved (u : Nat) (df : List RRow) (i : Nat) (r : RRow)
    (hi : df[i]? = some r)
    (hmax : ∀ (j : Nat) (q : RRow), df[j]? = some q →
      q.receiver_upi_id = r.receiver_upi_id →
      q.transaction_date ≤ r.transaction_date)
    (hfirst : ∀ (j : Nat) (q : RRow), j < i → df[j]? = some q →
      q.receiver_upi_id = r.receiver_upi_id →
      q.transaction_date < r.transaction_date) :
    (∃ e ∈ receiverData u df,
        e.receiver_upi_id = r.receiver_upi_id ∧ e.name = r.receiver_name) ∧
    (∀ e ∈ receiverData u df,
        e.receiver_upi_id = r.receiver_upi_id → e.name = r.receiver_name) := by
  have hr1 : rankAt df i r = 1 := by
    rw [rank1_iff]
    constructor
    · intro q hq hid
      rcases List.mem_iff_getElem?.mp hq with ⟨j, hj⟩
      exact Int.not_lt.mpr (hmax j q hj hid)
    · intro q hq hid
      rcases List.mem_iff_getElem?.mp hq with ⟨j, hj⟩
      have hjlen : j < (df.take i).length := (List.getElem?_eq_some.mp hj).1
      have hjlt : j < i := by
        rw [List.length_take] at hjlen
        omega
      have hj2 : df[j]? = some q := by
        rw [List.getElem?_take, if_pos hjlt] at hj
        exact hj
      exact Int.ne_of_lt (hfirst j q hjlt hj2 hid)
  have hrmem : r ∈ rank1Rows df := (mem_rank1Rows df r).mpr ⟨i, hi, hr1⟩
  constructor
  · exact ⟨⟨r.receiver_upi_id, r.receiver_name, u⟩,
      List.mem_map.mpr ⟨r, hrmem, rfl⟩, rfl, rfl⟩
  · intro e he huid
    rcases List.mem_map.mp he with ⟨q, hq, hqe⟩
    rcases (mem_rank1Rows df q).mp hq with ⟨j, hj, hrj⟩
    have hquid : q.receiver_upi_id = r.receiver_upi_id := by
      rw [← huid, ← hqe]
    have hname : e.name = q.receiver_name := by rw [← hqe]
    rw [hname]
    rcases Nat.lt_trichotomy j i with hlt | heq | hgt
    · exfalso
      have hql : q.transaction_date < r.transaction_date := hfirst j q hlt hj hquid
      have hno := ((rank1_iff df j q).mp hrj).1 r (List.getElem?_mem hi) hquid.symm
      exact hno hql
    · rw [heq] at hj
      have hsome : some q = some r := by rw [← hj, hi]
      have hqr : q = r := (Option.some.injEq _ _).mp hsome
      rw [hqr]
    · have hno := ((rank1_iff df j q).mp hrj).1 r (List.getElem?_mem hi) hquid.symm
      have hle := hmax j q hj hquid
      have heqd : q.transaction_date = r.transaction_date :=
        le_antisymm hle (Int.not_lt.mp hno)
      have hmemtake : r ∈ df.take j := mem_take_of_getElem df i j r hi hgt
      have hne := ((rank1_iff df j q).mp hrj).2 r hmemtake hquid.symm
      exact absurd heqd.symm hne

/-- Every non-empty row list has a date-maximal element. -/
theorem exists_max_date (a : RRow) (t : List RRow) :
    ∃ m ∈ a :: t, ∀ p ∈ a :: t, p.transaction_date ≤ m.transaction_date := by
  induction t generalizing a with
  | nil =>
    refine ⟨a, List.mem_cons_self a [], ?_⟩
    intro p hp
    rcases List.mem_cons.mp hp with rfl | h
    · exact le_refl _
    · cases h
  | cons b t ih =>
    rcases ih b with ⟨m, hm, hmax⟩
    by_cases hab : a.transaction_date ≤ m.transaction_date
    · refine ⟨m, List.mem_cons_of_mem a hm, ?_⟩
      intro p hp
      rcases List.mem_cons.mp hp with rfl | h
      · exact hab
      · exact hmax p h
    · refine ⟨a, List.mem_cons_self a (b :: t), ?_⟩
      intro p hp
      rcases List.mem_cons.mp hp with rfl | h
      · exact le_refl _
      · exact le_trans (hmax p h) (le_of_not_le hab)

/-- Every group represented in the batch has a rank-1 row: the first row
attaining the group-maximal date.  Hence every batch row's external id is
covered by the receivers upsert payload and by the read-back filter. -/
theorem exists_rank1_of_mem (df : List RRow) (r : RRow) (hr : r ∈ df) :
    ∃ q ∈ rank1Rows df, q.receiver_upi_id = r.receiver_upi_id := by
  have hrg : r ∈ df.filter (fun p => p.receiver_upi_id == r.receiver_upi_id) :=
    List.mem_filter.mpr ⟨hr, beq_iff_eq.mpr rfl⟩
  obtain ⟨m, hm, hmaxg⟩ : ∃ m ∈ df.filter (fun p => p.receiver_upi_id == r.receiver_upi_id),
      ∀ p ∈ df.filter (fun p => p.receiver_upi_id == r.receiver_upi_id),
        p.transaction_date ≤ m.transaction_date := by
    rcases hgl : df.filter (fun p => p.receiver_upi_id == r.receiver_upi_id) with _ | ⟨a, t⟩
    · rw [hgl] at hrg
      cases hrg
    · rw [hgl]
      exact exists_max_date a t
  have hmid : m.receiver_upi_id = r.receiver_upi_id :=
    beq_iff_eq.mp (List.mem_filter.mp hm).2
  have hPex : ∃ j : Nat, (df[j]?.any (fun q => q.receiver_upi_id == r.receiver_upi_id &&
      q.transaction_date == m.transaction_date)) = true := by
    rcases List.mem_iff_getElem?.mp (List.mem_filter.mp hm).1 with ⟨j, hj⟩
    refine ⟨j, ?_⟩
    rw [hj]
    show (m.receiver_upi_id == r.receiver_upi_id &&
      m.transaction_date == m.transaction_date) = true
    simp [hmid]
  have hP0 := Nat.find_spec hPex
  have hmin : ∀ k, k < Nat.find hPex →
      ¬ ((df[k]?.any (fun q => q.receiver_upi_id == r.receiver_upi_id &&
        q.transaction_date == m.transaction_date)) = true) :=
    fun k hk => Nat.find_min hPex hk
  cases hq0 : df[Nat.find hPex]? with
  | none =>
    rw [hq0] at hP0
    cases hP0
  | some q0 =>
    rw [hq0] at hP0
    have hP1 : (q0.receiver_upi_id == r.receiver_upi_id &&
        q0.transaction_date == m.transaction_date) = true := hP0
    rw [Bool.and_eq_true, beq_iff_eq, beq_iff_eq] at hP1
    have hr1 : rankAt df (Nat.find hPex) q0 = 1 := by
      rw [rank1_iff]
      constructor
      · intro p hp hpid
        have hpg : p ∈ df.filter (fun p2 => p2.receiver_upi_id == r.receiver_upi_id) :=
          List.mem_filter.mpr ⟨hp, beq_iff_eq.mpr (by rw [hpid, hP1.1])⟩
        have hple := hmaxg p hpg
        rw [hP1.2]
        exact Int.not_lt.mpr hple
      · intro p hp hpid
        intro hdeq
        rcases List.mem_iff_getElem?.mp hp with ⟨k, hk⟩
        have hklen : k < (df.take (Nat.find hPex)).length := (List.getElem?_eq_some.mp hk).1
        have hklt : k < Nat.find hPex := by
          rw [List.length_take] at hklen
          omega
        have hk2 : df[k]? = some p := by
          rw [List.getElem?_take, if_pos hklt] at hk
          exact hk
        apply hmin k hklt
        rw [hk2]
        show (p.receiver_upi_id == r.receiver_upi_id &&
          p.transaction_date == m.transaction_date) = true
        rw [Bool.and_eq_true, beq_iff_eq, beq_iff_eq]
        exact ⟨by rw [hpid, hP1.1], by rw [hdeq, hP1.2]⟩
    exact ⟨q0, (mem_rank1Rows df q0).mpr ⟨Nat.find hPex, hq0, hr1⟩, hP1.1⟩

/-! ## Claim C5: referential integrity of receiver_id -/

/-- C5 (amended).  With the store read-back modelled faithfully, every
batch record resolves: the receivers payload covers the record's
receiver_upi_id, the read-back returns a persisted row for it, and the
transaction record built for it carries some rec.id of a receiver row that
is present in the final store with the matching external id. -/
theorem c5_referential_integrity (u : Nat) (df : List RRow) (s : StoreState) (r : RRow)
    (hr : r ∈ df) :
    ∃ rec ∈ (processTransactions u df s).1.receivers,
      rec.receiver_upi_id = r.receiver_upi_id ∧
      (buildTx u (resolvedDb u df s) r).receiver_id = some rec.id := by
  have hne : df.isEmpty = false := by
    cases df with
    | nil => cases hr
    | cons a t => rfl
  have hfin : (processTransactions u df s).1.receivers = (resolvedRecState u df s).1 := by
    unfold processTransactions
    rw [hne]
    rfl
  rcases exists_rank1_of_mem df r hr with ⟨q, hq1, hqid⟩
  have hentry : (⟨q.receiver_upi_id, q.receiver_name, u⟩ : RecEntry) ∈ receiverData u df :=
    List.mem_map.mpr ⟨q, hq1, rfl⟩
  rcases key_of_data_present recLaws (receiverData u df)
      (s.receivers, s.nextReceiverId) _ hentry with ⟨rec, hrecmem, hreckey⟩
  have hrecid : rec.receiver_upi_id = r.receiver_upi_id := by
    rw [← hqid]
    exact hreckey
  have huidmem : r.receiver_upi_id ∈ receiverUpiIds df := by
    rw [← hqid]
    exact List.mem_map.mpr ⟨q, hq1, rfl⟩
  have hrecdb : rec ∈ resolvedDb u df s := by
    unfold resolvedDb readBack
    refine List.mem_filter.mpr ⟨hrecmem, ?_⟩
    have : r.receiver_upi_id ∈ receiverUpiIds df := huidmem
    rw [hrecid]
    exact List.elem_iff.mpr this
  rcases hf : ((resolvedDb u df s).reverse.find?
      (fun x => x.receiver_upi_id == r.receiver_upi_id)) with _ | rec2
  · exfalso
    have := List.find?_eq_none.mp hf rec (List.mem_reverse.mpr hrecdb)
    exact this (beq_iff_eq.mpr hrecid)
  · have hrec2mem : rec2 ∈ resolvedDb u df s :=
      List.mem_reverse.mp (List.mem_of_find?_eq_some hf)
    have hp := List.find?_some hf
    have hrec2id : rec2.receiver_upi_id = r.receiver_upi_id := beq_iff_eq.mp hp
    refine ⟨rec2, ?_, hrec2id, ?_⟩
    · rw [hfin]
      have : rec2 ∈ readBack (receiverUpiIds df) (resolvedRecState u df s).1 := hrec2mem
      exact (List.mem_filter.mp this).1
    · show mappingGet (resolvedDb u df s) r.receiver_upi_id = some rec2.id
      unfold mappingGet
      rw [hf]
      rfl

/-- C5 (counterexample to the claim as stated).  A batch record whose
receiver_upi_id is absent from the resolution mapping is not fatal: the
transaction record is built normally with a null receiver_id (the Python
dict .get returns None) and nothing raises — so such a record is written
with a null reference, not rejected with a ResolutionError (no such error
exists in the source). -/
theorem c5_counterexample :
    buildTx 1 [] ⟨"1", 5, "s@b", "a@b", "A", 0⟩ =
      { upi_ref_no := "1", amount := 5, sender_upi_id := "s@b",
        receiver_id := none, transaction_date := 0, user_id := 1 } := rfl

/-! ## Index lemmas for the dataframe assembly -/

/-- Components of an element of a zipWith, by index. -/
theorem zipWith_getElem? {A B C : Type} (f : A → B → C) (as : List A) (bs : List B)
    (i : Nat) (c : C) (h : (List.zipWith f as bs)[i]? = some c) :
    ∃ x y, as[i]? = some x ∧ bs[i]? = some y ∧ c = f x y := by
  induction as generalizing bs i with
  | nil => cases h
  | cons a as ih =>
    cases bs with
    | nil => cases h
    | cons b bs =>
      cases i with
      | zero =>
        simp only [List.zipWith_cons_cons, List.getElem?_cons_zero,
          Option.some.injEq] at h
        exact ⟨a, b, by simp, by simp, h.symm⟩
      | succ i =>
        simp only [List.zipWith_cons_cons, List.getElem?_cons_succ] at h
        simp only [List.getElem?_cons_succ]
        exact ih bs i h

/-- Components of a dataframe row, by index: each field of the row at
index i is the entry at index i of the corresponding column. -/
theorem zipRows_getElem? (rs ts fs ps : List String) (amts : List Rat) (ds : List Int)
    (i : Nat) (r : PRow) (h : (zipRows rs ts fs ps amts ds)[i]? = some r) :
    rs[i]? = some r.upi_ref_no ∧ ts[i]? = some r.payee_upi_id ∧
    fs[i]? = some r.sender_upi_id ∧ ps[i]? = some r.payee_name ∧
    amts[i]? = some r.amount ∧ ds[i]? = some r.transaction_date := by
  induction rs generalizing ts fs ps amts ds i with
  | nil => cases h
  | cons r0 rs ih =>
    cases ts with
    | nil => cases h
    | cons t0 ts =>
      cases fs with
      | nil => cases h
      | cons f0 fs =>
        cases ps with
        | nil => cases h
        | cons p0 ps =>
          cases amts with
          | nil => cases h
          | cons a0 amts =>
            cases ds with
            | nil => cases h
            | cons d0 ds =>
              cases i with
              | zero =>
                simp only [zipRows, List.getElem?_cons_zero, Option.some.injEq] at h
                rw [← h]
                refine ⟨?_, ?_, ?_, ?_, ?_, ?_⟩ <;> simp
              | succ i =>
                simp only [zipRows, List.getElem?_cons_succ] at h
                have := ih ts fs ps amts ds i h
                simp only [List.getElem?_cons_succ]
                exact this

/-! ## Claim C1: sign normalization against OWN_IDS -/

/-- C1 (amended).  For every row of the built dataframe, the stored amount
is the parsed amount multiplied by -1 exactly when the row's payee_upi_id
matches some entry of the comma-split IDS value by case-sensitive
substring membership; when the parsed amount is positive this makes the
amount negative if and only if the payee matched.  (For a zero or negative
parsed amount the claimed sign equivalence fails, see the
counterexample.) -/
theorem c1_sign_flip (envIds : String) (c : Columns) (rows : List PRow) (i : Nat)
    (r : PRow) (sa : String) (a : Rat)
    (hdf : mkMailDataframe envIds c = some rows)
    (hrow : rows[i]? = some r)
    (hsa : c.amount[i]? = some sa)
    (hpa : parseAmount sa = some a) :
    r.amount = (if ownIdsMatch envIds r.payee_upi_id then -a else a) ∧
    (0 < a → (r.amount < 0 ↔ ownIdsMatch envIds r.payee_upi_id = true)) := by
  unfold mkMailDataframe at hdf
  cases hca : columnsAligned c with
  | false => rw [hca] at hdf; cases hdf
  | true =>
    rw [hca] at hdf
    cases hany : c.amount.any (fun x => (parseAmount x).isNone) with
    | true => rw [hany] at hdf; cases hdf
    | false =>
      rw [hany] at hdf
      have hrows : rows = zipRows c.upiRefNo c.toVpa c.fromVpa c.payeeName
          (List.zipWith (fun x p => if ownIdsMatch envIds p then -x else x)
            (c.amount.map (fun x => (parseAmount x).getD 0)) c.toVpa) c.txnDate := by
        have := (Option.some.injEq _ _).mp hdf
        exact this.symm
      rw [hrows] at hrow
      rcases zipRows_getElem? _ _ _ _ _ _ _ _ hrow with
        ⟨_, hts, _, _, hamt, _⟩
      rcases zipWith_getElem? _ _ _ _ _ hamt with ⟨x, y, hx, hy, hxy⟩
      have hxa : x = a := by
        rw [List.getElem?_map, hsa] at hx
        simp only [Option.map_some'] at hx
        have h2 : (parseAmount sa).getD 0 = x := (Option.some.injEq _ _).mp hx
        rw [← h2, hpa]
        rfl
      have hyp : y = r.payee_upi_id := by
        have hsome : some y = some r.payee_upi_id := by
          rw [← hy, hts]
        exact (Option.some.injEq _ _).mp hsome
      have hfinal : r.amount = if ownIdsMatch envIds r.payee_upi_id then -a else a := by
        rw [hxy, hxa, hyp]
      refine ⟨hfinal, ?_⟩
      intro hpos
      cases hm : ownIdsMatch envIds r.payee_upi_id with
      | true =>
        rw [hm] at hfinal
        rw [if_pos rfl] at hfinal
        constructor
        · intro _
          rfl
        · intro _
          rw [hfinal]
          exact neg_lt_zero.mpr hpos
      | false =>
        rw [hm] at hfinal
        rw [if_neg (by simp)] at hfinal
        constructor
        · intro hlt
          exact absurd hlt (by rw [hfinal]; exact not_lt.mpr (le_of_lt hpos))
        · intro hfalse
          cases hfalse

/-- C1 (counterexample to the claim as stated).  A record whose amount
parses to zero and whose payee matches OWN_IDS keeps amount 0 after the
flip, so the matched record's amount is not negative: the biconditional
"amount is negative iff the counter-party id matched" fails at this
input. -/
theorem c1_counterexample :
    mkMailDataframe "me@bank" ⟨["1"], ["me@bank"], ["x@y"], ["A"], ["0"], [0]⟩ =
      some [⟨"1", "me@bank", "x@y", "A", 0, 0⟩] ∧
    ownIdsMatch "me@bank" "me@bank" = true ∧
    ¬ ((⟨"1", "me@bank", "x@y", "A", 0, 0⟩ : PRow).amount < 0) :=
  ⟨by decide, by decide, by decide⟩

/-- C1 witness: a concrete batch on which the amended sign statement is
instantiated. -/
theorem c1_sign_flip_witness :
    (⟨"1", "a@b", "m@b", "A", 5, 0⟩ : PRow).amount =
      (if ownIdsMatch "z" (⟨"1", "a@b", "m@b", "A", 5, 0⟩ : PRow).payee_upi_id
        then -(5 : Rat) else 5) ∧
    (0 < (5 : Rat) →
      ((⟨"1", "a@b", "m@b", "A", 5, 0⟩ : PRow).amount < 0 ↔
        ownIdsMatch "z" (⟨"1", "a@b", "m@b", "A", 5, 0⟩ : PRow).payee_upi_id = true)) :=
  c1_sign_flip "z" ⟨["1"], ["a@b"], ["m@b"], ["A"], ["5"], [0]⟩
    [⟨"1", "a@b", "m@b", "A", 5, 0⟩] 0 ⟨"1", "a@b", "m@b", "A", 5, 0⟩ "5" 5
    (by decide) (by decide) (by decide) (by decide)

/-! ## Claim C2: rejected marker elements yield nothing -/

/-- C2.  A marker span whose text carries the failed-status marker
contributes no records: the accumulated columns are unchanged, so no
record can originate from it; likewise a span whose text lacks the
external-reference label contributes nothing. -/
theorem c2_rejected_spans_yield_nothing (d : Int) (c : Columns) (sp : Span) :
    (strContains sp.text "Transaction Status: FAILED" = true →
      processSpan d c sp = c) ∧
    (strContains sp.text "UPI Ref. No. " = false → processSpan d c sp = c) := by
  constructor
  · intro h
    unfold processSpan
    cases href : strContains sp.text "UPI Ref. No. "
    · rfl
    · rw [h]
      rfl
  · intro h
    unfold processSpan
    rw [h]
    rfl

/-- Demonstration span carrying the failed-status marker. -/
def spanFailedDemo : Span :=
  ⟨"UPI Ref. No. : 1 Transaction Status: FAILED", "irrelevant"⟩

/-- Demonstration span lacking the external-reference label. -/
def spanNoRefDemo : Span := ⟨"hello world", "irrelevant"⟩

/-- C2 witness: both rejection branches instantiated on concrete spans. -/
theorem c2_rejected_spans_witness :
    strContains spanFailedDemo.text "Transaction Status: FAILED" = true ∧
    processSpan 0 emptyColumns spanFailedDemo = emptyColumns ∧
    strContains spanNoRefDemo.text "UPI Ref. No. " = false ∧
    processSpan 0 emptyColumns spanNoRefDemo = emptyColumns :=
  ⟨by decide,
   (c2_rejected_spans_yield_nothing 0 emptyColumns spanFailedDemo).1 (by decide),
   by decide,
   (c2_rejected_spans_yield_nothing 0 emptyColumns spanNoRefDemo).2 (by decide)⟩

/-! ## Claims about run-level failure handling (C6) and demo data -/

/-- Demonstration marker span with all six recognized keys; the Payee Name
value is empty.  The first markup chunk and the closing tag chunk are
skipped by the line filter. -/
def demoSpan : Span :=
  ⟨"Hi UPI Ref. No. : 1 To VPA : a@b From VPA : m@b Payee Name : Amount : 5 Transaction Date : x",
   "<span class=gmailmsg>Hi<br/>UPI Ref. No. : 1<br/>To VPA : a@b<br/>From VPA : m@b<br/>Payee Name :<br/>Amount : 5<br/>Transaction Date : x<br/></span>"⟩

/-- Demonstration mail: header instant 77, one decodable part with the
demonstration span. -/
def demoMail : Mail := ⟨77, [some [demoSpan]]⟩

/-- Columns the demonstration mail extracts to. -/
def demoColumns : Columns := ⟨["1"], ["a@b"], ["m@b"], [""], ["5"], [77]⟩

set_option maxRecDepth 8000 in
/-- C6 (counterexample to the claim as stated).  A run containing one good
message and one message whose fetched payload fails to decode returns
None for the whole run: the good message's records are not contributed,
so a decode failure does abort the run instead of being skipped. -/
theorem c6_counterexample :
    getParsedEmails [FetchResult.okMail demoMail] = some demoColumns ∧
    demoColumns ≠ emptyColumns ∧
    getParsedEmails [FetchResult.okMail demoMail, FetchResult.okBad] = none :=
  ⟨by decide, by decide, by decide⟩

/-- C6 (amended).  A fetch reported with a non-OK status is skipped and
the run continues as if the message were absent; but a fetch or decode
failure that raises makes the whole run return None, discarding every
message's records. -/
theorem c6_fetch_failure_semantics :
    (∀ (xs ys : List FetchResult),
      getParsedEmails (xs ++ FetchResult.notOk :: ys) = getParsedEmails (xs ++ ys)) ∧
    (∀ rs : List FetchResult, FetchResult.okBad ∈ rs → getParsedEmails rs = none) := by
  have aux1 : ∀ (xs ys : List FetchResult) (c : Columns),
      runMails c (xs ++ FetchResult.notOk :: ys) = runMails c (xs ++ ys) := by
    intro xs
    induction xs with
    | nil => intro ys c; rfl
    | cons x xs ih =>
      intro ys c
      cases x with
      | notOk => exact ih ys c
      | okBad => rfl
      | okMail m => exact ih ys (processMail c m)
  have aux2 : ∀ (rs : List FetchResult) (c : Columns), FetchResult.okBad ∈ rs →
      runMails c rs = none := by
    intro rs
    induction rs with
    | nil => intro c h; cases h
    | cons x xs ih =>
      intro c h
      cases x with
      | notOk =>
        rcases List.mem_cons.mp h with h1 | h1
        · exact FetchResult.noConfusion h1
        · exact ih c h1
      | okBad => rfl
      | okMail m =>
        rcases List.mem_cons.mp h with h1 | h1
        · exact FetchResult.noConfusion h1
        · exact ih (processMail c m) h1
  exact ⟨fun xs ys => aux1 xs ys emptyColumns, fun rs h => aux2 rs emptyColumns h⟩

/-- C6 witness: the abort branch of the amended statement instantiated. -/
theorem c6_fetch_failure_witness :
    FetchResult.okBad ∈ [FetchResult.okBad] ∧
    getParsedEmails [FetchResult.okBad] = none :=
  ⟨List.mem_singleton.mpr rfl,
   c6_fetch_failure_semantics.2 [FetchResult.okBad] (List.mem_singleton.mpr rfl)⟩

/-! ## Claim C7: unparsable amount handling -/

/-- Well-formed single-record columns. -/
def goodColumns : Columns := ⟨["1"], ["a@b"], ["m@b"], ["A"], ["5"], [0]⟩

/-- Two-record columns whose second amount does not parse. -/
def mixedColumns : Columns :=
  ⟨["1", "2"], ["a@b", "c@d"], ["m@b", "m@b"], ["A", "B"], ["5", "abc"], [0, 1]⟩

/-- C7 (counterexample to the claim as stated).  The record with amount
"5" survives alone, but adding a second record with amount "abc" makes
get_mail_dataframe return None for the whole batch: the well-formed record
is dropped too, not kept while only the bad record is dropped. -/
theorem c7_counterexample :
    mkMailDataframe "z" goodColumns = some [⟨"1", "a@b", "m@b", "A", 5, 0⟩] ∧
    parseAmount "abc" = none ∧
    mkMailDataframe "z" mixedColumns = none :=
  ⟨by decide, by decide, by decide⟩

/-- C7 (amended).  get_mail_dataframe never raises (it is total and
returns an Option), and a batch containing any amount string that fails to
parse yields None for the entire batch: every record is dropped, not only
the affected one. -/
theorem c7_bad_amount_drops_whole_batch (envIds : String) (c : Columns)
    (h : ∃ sa ∈ c.amount, parseAmount sa = none) :
    mkMailDataframe envIds c = none := by
  unfold mkMailDataframe
  cases hca : columnsAligned c
  · rfl
  · have hany : c.amount.any (fun x => (parseAmount x).isNone) = true := by
      rcases h with ⟨sa, hmem, hpa⟩
      refine List.any_eq_true.mpr ⟨sa, hmem, ?_⟩
      rw [hpa]
      rfl
    rw [hany]
    rfl

/-- C7 witness: the amended statement instantiated on the mixed batch. -/
theorem c7_bad_amount_witness :
    (∃ sa ∈ mixedColumns.amount, parseAmount sa = none) ∧
    mkMailDataframe "z" mixedColumns = none :=
  ⟨⟨"abc", by decide, by decide⟩,
   c7_bad_amount_drops_whole_batch "z" mixedColumns ⟨"abc", by decide, by decide⟩⟩

/-! ## Claim C8: completeness of emitted records -/

set_option maxRecDepth 8000 in
/-- C8 (counterexample to the claim as stated).  A span whose Payee Name
line has an empty value extracts to a batch record whose payee_name is the
empty string: a record with an empty field does reach the batch, so the
all-fields-non-empty invariant fails. -/
theorem c8_counterexample :
    getParsedEmails [FetchResult.okMail demoMail] = some demoColumns ∧
    mkMailDataframe "z" demoColumns = some [⟨"1", "a@b", "m@b", "", 5, 77⟩] ∧
    (⟨"1", "a@b", "m@b", "", 5, 77⟩ : PRow).payee_name = "" :=
  ⟨by decide, by decide, rfl⟩

/-- C8 (amended).  Every row of a built dataframe carries all six fields
by construction, but the fields may be empty strings; and when the
accumulated key groups are mismatched — the column lists have unequal
lengths — dataframe construction returns None for the whole batch, so no
record at all (in particular no partial record) is emitted. -/
theorem c8_misaligned_columns_yield_none (envIds : String) (c : Columns)
    (h : columnsAligned c = false) :
    mkMailDataframe envIds c = none := by
  unfold mkMailDataframe
  rw [h]
  rfl

/-- Columns with a missing To VPA entry (mismatched key accumulation). -/
def misColumns : Columns := ⟨["1"], [], ["m@b"], ["A"], ["5"], [0]⟩

/-- C8 witness: the amended statement instantiated on mismatched columns. -/
theorem c8_misaligned_columns_witness :
    columnsAligned misColumns = false ∧ mkMailDataframe "z" misColumns = none :=
  ⟨by decide, c8_misaligned_columns_yield_none "z" misColumns (by decide)⟩

/-! ## Claim C9: the empty run is a successful no-op -/

/-- C9.  An empty mail-id set parses to the empty column dictionary, which
builds the empty dataframe rather than an error, and process_transactions
on an empty dataframe returns immediately: the store is untouched and no
store call is issued.  All three stages succeed, so the run terminates as
a success with zero transactions. -/
theorem c9_empty_run_is_noop (envIds : String) (u : Nat) (s : StoreState) :
    getParsedEmails [] = some emptyColumns ∧
    mkMailDataframe envIds emptyColumns = some [] ∧
    processTransactions u [] s = (s, []) :=
  ⟨rfl, rfl, rfl⟩

/-! ## Claim C10: truncate-and-reset precedes the parse check -/

/-- C10.  In the full-refresh endpoint the truncate-and-reset RPC is
issued after parsing but with no check that parsing succeeded: whenever
parsing or dataframe construction produced None, the endpoint still
truncates both stores, the processing step raises, the caller receives the
generic 500 error, and the truncated (empty) store state persists — prior
state is not restored on error. -/
theorem c10_truncate_precedes_parse_check (u : Nat) (envIds : String)
    (parsed : Option Columns) (s : StoreState)
    (h : parsed.bind (mkMailDataframe envIds) = none) :
    populateAllTransactions u envIds parsed s =
      (PopResponse.error500, emptyStore, [StoreOp.truncateAndReset]) := by
  unfold populateAllTransactions
  rw [h]

/-- C10 witness: a failed parse over a non-empty prior store leaves the
truncated store, a 500 response and the truncate call issued. -/
theorem c10_truncate_witness :
    (Option.bind (none : Option Columns) (mkMailDataframe "z") = none) ∧
    populateAllTransactions 1 "z" none ⟨[⟨5, "a@b", "A", 1⟩], 6, [], 1⟩ =
      (PopResponse.error500, emptyStore, [StoreOp.truncateAndReset]) :=
  ⟨rfl, c10_truncate_precedes_parse_check 1 "z" none ⟨[⟨5, "a@b", "A", 1⟩], 6, [], 1⟩ rfl⟩

/-! ## Concrete witnesses for the resolver claims -/

/-- Demonstration batch row: the older record of a group. -/
def rowOldDemo : RRow := ⟨"1", 5, "m@b", "u@b", "Old", 3⟩

/-- Demonstration batch row: the strictly most recent record of the
group. -/
def rowNewDemo : RRow := ⟨"2", 7, "m@b", "u@b", "New", 9⟩

/-- Demonstration batch with two records for one receiver, older first. -/
def dfDemo : List RRow := [rowOldDemo, rowNewDemo]

/-- C3 witness: on the demonstration batch the upserted name for the
shared external id is the one of the strictly most recent record. -/
theorem c3_latest_name_witness :
    (∃ e ∈ receiverData 1 dfDemo,
        e.receiver_upi_id = rowNewDemo.receiver_upi_id ∧
        e.name = rowNewDemo.receiver_name) ∧
    (∀ e ∈ receiverData 1 dfDemo,
        e.receiver_upi_id = rowNewDemo.receiver_upi_id →
        e.name = rowNewDemo.receiver_name) :=
  c3_latest_name_resolved 1 dfDemo 1 rowNewDemo (by decide)
    (by
      intro j q hj _
      cases j with
      | zero =>
        simp only [dfDemo, List.getElem?_cons_zero, Option.some.injEq] at hj
        rw [← hj]
        decide
      | succ j =>
        cases j with
        | zero =>
          simp only [dfDemo, List.getElem?_cons_succ, List.getElem?_cons_zero,
            Option.some.injEq] at hj
          rw [← hj]
        | succ j =>
          simp only [dfDemo, List.getElem?_cons_succ, List.getElem?_nil] at hj
          cases hj)
    (by
      intro j q hjlt hj _
      cases j with
      | zero =>
        simp only [dfDemo, List.getElem?_cons_zero, Option.some.injEq] at hj
        rw [← hj]
        decide
      | succ j => omega)

/-- C5 witness: a singleton batch over the empty store resolves its
record to a persisted receiver row. -/
theorem c5_referential_witness :
    rowNewDemo ∈ [rowNewDemo] ∧
    ∃ rec ∈ (processTransactions 1 [rowNewDemo] emptyStore).1.receivers,
      rec.receiver_upi_id = rowNewDemo.receiver_upi_id ∧
      (buildTx 1 (resolvedDb 1 [rowNewDemo] emptyStore) rowNewDemo).receiver_id =
        some rec.id :=
  ⟨List.mem_singleton.mpr rfl,
   c5_referential_integrity 1 [rowNewDemo] emptyStore rowNewDemo
     (List.mem_singleton.mpr rfl)⟩
